import Mathlib

/-!
Verification of the authenticated-encryption-at-rest subsystem of the
PassOP password manager (backend/src/utils/crypto.js).

The JavaScript module is shallowly embedded at the byte level:

* JavaScript strings are `List Char` (Lean chars are Unicode scalar values);
  `Buffer.from(s, 'utf8')` is the executable `utf8Encode`, and
  `buf.toString('utf8')` is `utf8Decode`.
* Node `Buffer`s are `List Nat` with every entry `< 256`.
* `Buffer.from(s, 'base64')` is `jsB64Decode`, modelling Node's lenient
  decoder (characters outside the alphabet, including `=`, are skipped);
  `buf.toString('base64')` is `b64EncodeBytes`.
* The external cryptographic primitives of the Node `crypto` module
  (AES-256-GCM, PBKDF2-SHA512, SHA-256) are not part of the repository;
  they are modelled as explicit executable byte functions that preserve
  the primitives' interface contracts (determinism, output lengths, GCM
  counter-mode structure: ciphertext = plaintext XOR keystream, and a
  16-byte authentication tag recomputed from key, nonce and ciphertext).
  Each such model is marked in its doc comment.
* `crypto.randomBytes` output (IVs and salts) is passed as an explicit
  argument, universally quantified in the theorems with the length the
  source requests.

The functions of crypto.js itself — `deriveKey`, `getKey`, `encrypt`,
`decrypt`, `encryptWithPassword`, `decryptWithPassword`, `secureCompare` —
are translated line by line from the source.
-/

namespace Passop

/-- A byte sequence (Node `Buffer`) is well formed when every entry is a byte. -/
def BytesWF (bs : List Nat) : Prop := ∀ b ∈ bs, b < 256

instance (bs : List Nat) : Decidable (BytesWF bs) := by
  unfold BytesWF; infer_instance

/-! ### UTF-8, modelling `Buffer.from(s, 'utf8')` and `buf.toString('utf8')` -/

/-- Standard UTF-8 encoding of one Unicode scalar value. -/
def utf8EncodeChar (c : Char) : List Nat :=
  if c.toNat < 128 then [c.toNat]
  else if c.toNat < 2048 then [192 + c.toNat / 64, 128 + c.toNat % 64]
  else if c.toNat < 65536 then
    [224 + c.toNat / 4096, 128 + c.toNat / 64 % 64, 128 + c.toNat % 64]
  else
    [240 + c.toNat / 262144, 128 + c.toNat / 4096 % 64,
     128 + c.toNat / 64 % 64, 128 + c.toNat % 64]

/-- UTF-8 encoding of a string, i.e. `Buffer.from(s, 'utf8')`. -/
def utf8Encode (s : List Char) : List Nat :=
  (s.map utf8EncodeChar).flatten

/-- Decode one UTF-8 scalar value from a leading byte and the following bytes;
returns the scalar value and the number of continuation bytes it consumed. -/
def utf8DecodeStep (b : Nat) (rest : List Nat) : Option (Nat × Nat) :=
  if b < 128 then some (b, 0)
  else if b < 192 then none
  else if b < 224 then
    match rest with
    | b1 :: _ =>
      if 128 ≤ b1 ∧ b1 < 192 then some ((b - 192) * 64 + (b1 - 128), 1)
      else none
    | [] => none
  else if b < 240 then
    match rest with
    | b1 :: b2 :: _ =>
      if (128 ≤ b1 ∧ b1 < 192) ∧ (128 ≤ b2 ∧ b2 < 192) then
        some ((b - 224) * 4096 + (b1 - 128) * 64 + (b2 - 128), 2)
      else none
    | _ => none
  else
    match rest with
    | b1 :: b2 :: b3 :: _ =>
      if (128 ≤ b1 ∧ b1 < 192) ∧ (128 ≤ b2 ∧ b2 < 192) ∧ (128 ≤ b3 ∧ b3 < 192) then
        some ((b - 240) * 262144 + (b1 - 128) * 4096 + (b2 - 128) * 64 + (b3 - 128), 3)
      else none
    | _ => none

/-- Fuel-driven worker of the UTF-8 decoder (the fuel makes the recursion
structural, so the kernel can evaluate it; `utf8DecodeAux` supplies enough
fuel for it never to run out). -/
def utf8DecodeGo : Nat → List Nat → Option (List Char)
  | _, [] => some []
  | 0, _ :: _ => none
  | fuel + 1, b :: rest =>
    match utf8DecodeStep b rest with
    | some (n, k) => (utf8DecodeGo fuel (rest.drop k)).map (fun cs => Char.ofNat n :: cs)
    | none => none

/-- UTF-8 decoding; `none` on byte sequences that are not a valid encoding. -/
def utf8DecodeAux (bs : List Nat) : Option (List Char) :=
  utf8DecodeGo bs.length bs

theorem utf8DecodeGo_congr :
    ∀ fuel1 fuel2 bs, bs.length ≤ fuel1 → bs.length ≤ fuel2 →
      utf8DecodeGo fuel1 bs = utf8DecodeGo fuel2 bs := by
  intro fuel1
  induction fuel1 with
  | zero =>
    intro fuel2 bs h1 h2
    have : bs = [] := List.length_eq_zero.mp (by omega)
    subst this
    cases fuel2 <;> rfl
  | succ f1 ih =>
    intro fuel2 bs h1 h2
    cases bs with
    | nil => cases fuel2 <;> rfl
    | cons b rest =>
      cases fuel2 with
      | zero => simp at h2
      | succ f2 =>
        simp only [utf8DecodeGo]
        cases hstep : utf8DecodeStep b rest with
        | none => rfl
        | some nk =>
          obtain ⟨n, k⟩ := nk
          have hd : (rest.drop k).length ≤ f1 := by
            simp only [List.length_drop]
            simp only [List.length_cons] at h1
            omega
          have hd2 : (rest.drop k).length ≤ f2 := by
            simp only [List.length_drop]
            simp only [List.length_cons] at h2
            omega
          dsimp only
          rw [ih f2 (rest.drop k) hd hd2]

/-- Model of `buf.toString('utf8')`; the claims only exercise it on valid
encodings, where it is the inverse of `utf8Encode`. -/
def utf8Decode (bs : List Nat) : List Char :=
  (utf8DecodeAux bs).getD []

theorem char_toNat_lt (c : Char) : c.toNat < 1114112 := by
  have h := c.valid
  simp only [Char.toNat]
  rcases h with h | h
  · omega
  · omega

theorem utf8EncodeChar_ne_nil (c : Char) : utf8EncodeChar c ≠ [] := by
  unfold utf8EncodeChar
  split
  · simp
  · split
    · simp
    · split <;> simp

theorem utf8EncodeChar_wf (c : Char) : BytesWF (utf8EncodeChar c) := by
  have hc := char_toNat_lt c
  unfold utf8EncodeChar BytesWF
  split
  · intro b hb; simp_all; omega
  · split
    · intro b hb; simp_all; rcases hb with h | h <;> omega
    · split
      · intro b hb; simp_all
        rcases hb with h | h | h <;> omega
      · intro b hb; simp_all
        rcases hb with h | h | h | h <;> omega

theorem utf8Encode_wf (s : List Char) : BytesWF (utf8Encode s) := by
  intro b hb
  simp only [utf8Encode, List.mem_flatten, List.mem_map] at hb
  obtain ⟨l, ⟨c, _, rfl⟩, hbl⟩ := hb
  exact utf8EncodeChar_wf c b hbl

theorem utf8Encode_nil : utf8Encode [] = [] := rfl

theorem utf8Encode_cons (c : Char) (s : List Char) :
    utf8Encode (c :: s) = utf8EncodeChar c ++ utf8Encode s := by
  simp [utf8Encode]

theorem utf8Encode_eq_nil_iff (s : List Char) : utf8Encode s = [] ↔ s = [] := by
  cases s with
  | nil => simp [utf8Encode]
  | cons c s =>
    rw [utf8Encode_cons]
    simp [utf8EncodeChar_ne_nil c]

theorem utf8DecodeAux_cons (b : Nat) (rest : List Nat) :
    utf8DecodeAux (b :: rest) =
      match utf8DecodeStep b rest with
      | some (n, k) => (utf8DecodeAux (rest.drop k)).map (fun cs => Char.ofNat n :: cs)
      | none => none := by
  show utf8DecodeGo (b :: rest).length (b :: rest) = _
  simp only [List.length_cons, utf8DecodeGo]
  cases hstep : utf8DecodeStep b rest with
  | none => rfl
  | some nk =>
    obtain ⟨n, k⟩ := nk
    dsimp only
    rw [utf8DecodeGo_congr rest.length (rest.drop k).length (rest.drop k)
      (by simp [List.length_drop]) (le_refl _)]
    rfl

theorem utf8DecodeAux_encodeChar (c : Char) (rest : List Nat) :
    utf8DecodeAux (utf8EncodeChar c ++ rest) =
      (utf8DecodeAux rest).map (fun cs => c :: cs) := by
  have hc := char_toNat_lt c
  have hofNat : Char.ofNat c.toNat = c := Char.ofNat_toNat c
  unfold utf8EncodeChar
  by_cases h1 : c.toNat < 128
  · simp only [h1, if_true, List.cons_append, List.nil_append]
    rw [utf8DecodeAux_cons]
    have hstep : utf8DecodeStep c.toNat rest = some (c.toNat, 0) := by
      unfold utf8DecodeStep
      simp [h1]
    rw [hstep]
    simp [hofNat]
  · by_cases h2 : c.toNat < 2048
    · simp only [h1, h2, if_true, if_false, List.cons_append, List.nil_append]
      rw [utf8DecodeAux_cons]
      have hstep : utf8DecodeStep (192 + c.toNat / 64) ((128 + c.toNat % 64) :: rest)
          = some (c.toNat, 1) := by
        unfold utf8DecodeStep
        have e1 : ¬ (192 + c.toNat / 64 < 128) := by omega
        have e2 : ¬ (192 + c.toNat / 64 < 192) := by omega
        have e3 : 192 + c.toNat / 64 < 224 := by omega
        have e4 : 128 ≤ 128 + c.toNat % 64 ∧ 128 + c.toNat % 64 < 192 := by omega
        have e5 : (192 + c.toNat / 64 - 192) * 64 + (128 + c.toNat % 64 - 128)
            = c.toNat := by omega
        simp [e1, e2, e3, e4, e5]
        omega
      rw [hstep]
      simp [hofNat]
    · by_cases h3 : c.toNat < 65536
      · simp only [h1, h2, h3, if_true, if_false, List.cons_append, List.nil_append]
        rw [utf8DecodeAux_cons]
        have hstep : utf8DecodeStep (224 + c.toNat / 4096)
            ((128 + c.toNat / 64 % 64) :: (128 + c.toNat % 64) :: rest)
            = some (c.toNat, 2) := by
          unfold utf8DecodeStep
          have e1 : ¬ (224 + c.toNat / 4096 < 128) := by omega
          have e2 : ¬ (224 + c.toNat / 4096 < 192) := by omega
          have e3 : ¬ (224 + c.toNat / 4096 < 224) := by omega
          have e4 : 224 + c.toNat / 4096 < 240 := by omega
          have e5 : (128 ≤ 128 + c.toNat / 64 % 64 ∧ 128 + c.toNat / 64 % 64 < 192) ∧
              (128 ≤ 128 + c.toNat % 64 ∧ 128 + c.toNat % 64 < 192) := by omega
          have e6 : (224 + c.toNat / 4096 - 224) * 4096 +
              (128 + c.toNat / 64 % 64 - 128) * 64 + (128 + c.toNat % 64 - 128)
              = c.toNat := by omega
          simp [e1, e2, e3, e4, e5, e6]
          omega
        rw [hstep]
        simp [hofNat]
      · simp only [h1, h2, h3, if_false, List.cons_append, List.nil_append]
        rw [utf8DecodeAux_cons]
        have hstep : utf8DecodeStep (240 + c.toNat / 262144)
            ((128 + c.toNat / 4096 % 64) :: (128 + c.toNat / 64 % 64) ::
              (128 + c.toNat % 64) :: rest)
            = some (c.toNat, 3) := by
          unfold utf8DecodeStep
          have e1 : ¬ (240 + c.toNat / 262144 < 128) := by omega
          have e2 : ¬ (240 + c.toNat / 262144 < 192) := by omega
          have e3 : ¬ (240 + c.toNat / 262144 < 224) := by omega
          have e4 : ¬ (240 + c.toNat / 262144 < 240) := by omega
          have e5 : (128 ≤ 128 + c.toNat / 4096 % 64 ∧ 128 + c.toNat / 4096 % 64 < 192) ∧
              (128 ≤ 128 + c.toNat / 64 % 64 ∧ 128 + c.toNat / 64 % 64 < 192) ∧
              (128 ≤ 128 + c.toNat % 64 ∧ 128 + c.toNat % 64 < 192) := by omega
          have e6 : (240 + c.toNat / 262144 - 240) * 262144 +
              (128 + c.toNat / 4096 % 64 - 128) * 4096 +
              (128 + c.toNat / 64 % 64 - 128) * 64 + (128 + c.toNat % 64 - 128)
              = c.toNat := by omega
          simp [e1, e2, e3, e4, e5, e6]
          omega
        rw [hstep]
        simp [hofNat]

theorem utf8DecodeAux_utf8Encode (s : List Char) :
    utf8DecodeAux (utf8Encode s) = some s := by
  induction s with
  | nil => simp [utf8Encode_nil, utf8DecodeAux, utf8DecodeGo]
  | cons c s ih =>
    rw [utf8Encode_cons, utf8DecodeAux_encodeChar, ih]
    rfl

theorem utf8Decode_utf8Encode (s : List Char) :
    utf8Decode (utf8Encode s) = s := by
  simp [utf8Decode, utf8DecodeAux_utf8Encode]

theorem utf8Encode_injective : Function.Injective utf8Encode := by
  intro a b h
  have ha := utf8DecodeAux_utf8Encode a
  have hb := utf8DecodeAux_utf8Encode b
  rw [h, hb] at ha
  exact (Option.some_inj.mp ha).symm


/-! ### Base64, modelling `buf.toString('base64')` and `Buffer.from(s, 'base64')` -/

/-- The base64 alphabet. -/
def b64Chars : List Char :=
  "ABCDEFGHIJKLMNOPQRSTUVWXYZabcdefghijklmnopqrstuvwxyz0123456789+/".toList

/-- The base64 digit for a 6-bit value. -/
def b64Char (n : Nat) : Char := b64Chars.getD n 'A'

/-- The 6-bit value of a base64 digit; `none` for characters outside the
alphabet (including `=` and whitespace). -/
def b64CharVal (c : Char) : Option Nat :=
  if c ∈ b64Chars then some (b64Chars.indexOf c) else none

/-- Standard base64 encoding with padding: `buf.toString('base64')`. -/
def b64EncodeBytes : List Nat → List Char
  | b0 :: b1 :: b2 :: rest =>
    b64Char (b0 / 4) :: b64Char (b0 % 4 * 16 + b1 / 16) ::
      b64Char (b1 % 16 * 4 + b2 / 64) :: b64Char (b2 % 64) :: b64EncodeBytes rest
  | [b0, b1] =>
    [b64Char (b0 / 4), b64Char (b0 % 4 * 16 + b1 / 16), b64Char (b1 % 16 * 4), '=']
  | [b0] => [b64Char (b0 / 4), b64Char (b0 % 4 * 16), '=', '=']
  | [] => []

/-- Reassemble bytes from a stream of 6-bit values (a trailing single value
carries no whole byte and is dropped, as in Node's lenient decoder). -/
def b64Sextets : List Nat → List Nat
  | a :: b :: c :: d :: rest =>
    (a * 4 + b / 16) :: (b % 16 * 16 + c / 4) :: (c % 4 * 64 + d) :: b64Sextets rest
  | [a, b, c] => [a * 4 + b / 16, b % 16 * 16 + c / 4]
  | [a, b] => [a * 4 + b / 16]
  | _ => []

/-- Model of `Buffer.from(s, 'base64')`: Node's lenient decoder skips every
character outside the base64 alphabet (including `=` padding and whitespace)
and decodes the remaining digit stream; it never throws on a string input. -/
def jsB64Decode (s : List Char) : List Nat :=
  b64Sextets (s.filterMap b64CharVal)

/-- Syntactic validity of a base64 string: length a multiple of 4 and only
alphabet characters before at most two `=` of final padding. (The source
never checks this; Node decodes leniently.) -/
def isValidB64 (s : List Char) : Bool :=
  decide (s.length % 4 = 0) &&
    (match s.reverse with
     | '=' :: '=' :: body => body.all (fun c => (b64CharVal c).isSome)
     | '=' :: body => body.all (fun c => (b64CharVal c).isSome)
     | body => body.all (fun c => (b64CharVal c).isSome))

theorem b64CharVal_b64Char : ∀ n, n < 64 → b64CharVal (b64Char n) = some n := by
  decide

theorem b64CharVal_eq_none : b64CharVal '=' = none := by decide

theorem b64EncodeBytes_nil : b64EncodeBytes [] = [] := rfl

theorem b64EncodeBytes_ne_nil {bs : List Nat} (h : bs ≠ []) :
    b64EncodeBytes bs ≠ [] := by
  rcases bs with _ | ⟨b0, _ | ⟨b1, _ | ⟨b2, r⟩⟩⟩ <;> simp_all [b64EncodeBytes]

theorem jsB64Decode_encode (bs : List Nat) :
    BytesWF bs → jsB64Decode (b64EncodeBytes bs) = bs := by
  induction bs using b64EncodeBytes.induct with
  | case1 b0 b1 b2 rest ih =>
    intro h
    have h0 : b0 < 256 := h b0 (by simp)
    have h1 : b1 < 256 := h b1 (by simp)
    have h2 : b2 < 256 := h b2 (by simp)
    have hrest : BytesWF rest := by
      intro b hb; exact h b (by simp [hb])
    have ihr := ih hrest
    simp only [jsB64Decode] at ihr ⊢
    simp only [b64EncodeBytes, List.filterMap_cons,
      b64CharVal_b64Char _ (show b0 / 4 < 64 by omega),
      b64CharVal_b64Char _ (show b0 % 4 * 16 + b1 / 16 < 64 by omega),
      b64CharVal_b64Char _ (show b1 % 16 * 4 + b2 / 64 < 64 by omega),
      b64CharVal_b64Char _ (show b2 % 64 < 64 by omega)]
    simp only [b64Sextets]
    rw [ihr]
    simp only [List.cons.injEq, and_true, eq_self_iff_true]
    omega
  | case2 b0 b1 =>
    intro h
    have h0 : b0 < 256 := h b0 (by simp)
    have h1 : b1 < 256 := h b1 (by simp)
    simp only [jsB64Decode, b64EncodeBytes, List.filterMap_cons,
      b64CharVal_b64Char _ (show b0 / 4 < 64 by omega),
      b64CharVal_b64Char _ (show b0 % 4 * 16 + b1 / 16 < 64 by omega),
      b64CharVal_b64Char _ (show b1 % 16 * 4 < 64 by omega),
      b64CharVal_eq_none, List.filterMap_nil]
    simp only [b64Sextets]
    simp only [List.cons.injEq, and_true, eq_self_iff_true]
    omega
  | case3 b0 =>
    intro h
    have h0 : b0 < 256 := h b0 (by simp)
    simp only [jsB64Decode, b64EncodeBytes, List.filterMap_cons,
      b64CharVal_b64Char _ (show b0 / 4 < 64 by omega),
      b64CharVal_b64Char _ (show b0 % 4 * 16 < 64 by omega),
      b64CharVal_eq_none, List.filterMap_nil]
    simp only [b64Sextets]
    simp only [List.cons.injEq, and_true, eq_self_iff_true]
    omega
  | case4 =>
    intro h
    rfl

/-! ### Models of the external Node `crypto` primitives -/

/-- Mixing fold used by the primitive models below; an arbitrary fixed
deterministic function of a seed and a byte list. -/
def mixList (seed : Nat) (bs : List Nat) : Nat :=
  bs.foldl (fun a b => (a * 257 + b + 1) % 1000003) seed

/-- Model of the external AES-256-CTR keystream inside GCM: a deterministic
byte stream determined by the key, the nonce and the byte position. -/
def gcmKeystreamByte (key iv : List Nat) (i : Nat) : Nat :=
  (mixList 2 key * 31 + mixList 3 iv * 7 + i * 101 + 13) % 256

/-- XOR a byte list with the keystream starting at position `i`; GCM
encryption and decryption of the payload are both this function. -/
def xorKeystream (key iv : List Nat) : Nat → List Nat → List Nat
  | _, [] => []
  | i, b :: rest => (b ^^^ gcmKeystreamByte key iv i) :: xorKeystream key iv (i + 1) rest

/-- Model of the external GCM authentication tag (`cipher.getAuthTag()`):
16 deterministic bytes computed from the key, the nonce and the ciphertext.
`decipher.final()` succeeds exactly when the supplied tag equals this
recomputation. -/
def gcmTagBytes (key iv ct : List Nat) : List Nat :=
  (List.range 16).map (fun i => mixList (i + 41) (key ++ 255 :: iv ++ 254 :: ct) % 256)

/-- Model of the external `crypto.pbkdf2Sync(password, salt, iterations,
keyLen, digest)`: a deterministic function of all five arguments returning
`keyLen` bytes. -/
def pbkdf2Sync (password : List Char) (salt : List Nat) (iterations keyLen : Nat)
    (digest : List Char) : List Nat :=
  (List.range keyLen).map (fun i =>
    mixList (i + iterations)
      (utf8Encode digest ++ 253 :: utf8Encode password ++ 252 :: salt) % 256)

/-- Model of the external `crypto.createHash('sha256').update(data).digest()`:
32 deterministic bytes from the input. -/
def sha256Bytes (data : List Nat) : List Nat :=
  (List.range 32).map (fun i => mixList (i + 97) data % 256)

theorem xorKeystream_length (key iv : List Nat) (i : Nat) (bs : List Nat) :
    (xorKeystream key iv i bs).length = bs.length := by
  induction bs generalizing i with
  | nil => rfl
  | cons b rest ih => simp [xorKeystream, ih]

theorem xorKeystream_xorKeystream (key iv : List Nat) (i : Nat) (bs : List Nat) :
    xorKeystream key iv i (xorKeystream key iv i bs) = bs := by
  induction bs generalizing i with
  | nil => rfl
  | cons b rest ih =>
    simp only [xorKeystream, List.cons.injEq]
    refine ⟨?_, ih (i + 1)⟩
    rw [Nat.xor_assoc, Nat.xor_self, Nat.xor_zero]

theorem gcmKeystreamByte_lt (key iv : List Nat) (i : Nat) :
    gcmKeystreamByte key iv i < 256 := by
  unfold gcmKeystreamByte
  omega

theorem xorKeystream_wf (key iv : List Nat) (i : Nat) (bs : List Nat)
    (h : BytesWF bs) : BytesWF (xorKeystream key iv i bs) := by
  induction bs generalizing i with
  | nil => intro b hb; simp [xorKeystream] at hb
  | cons b rest ih =>
    intro x hx
    simp only [xorKeystream, List.mem_cons] at hx
    rcases hx with hx | hx
    · subst hx
      have hb : b < 256 := h b (by simp)
      have hk : gcmKeystreamByte key iv i < 256 := gcmKeystreamByte_lt key iv i
      have := Nat.xor_lt_two_pow (n := 8) (by simpa using hb)
        (by simpa using hk)
      simpa using this
    · exact ih (i + 1) (fun y hy => h y (by simp [hy])) x hx

theorem xorKeystream_eq_nil_iff (key iv : List Nat) (i : Nat) (bs : List Nat) :
    xorKeystream key iv i bs = [] ↔ bs = [] := by
  cases bs <;> simp [xorKeystream]

theorem gcmTagBytes_length (key iv ct : List Nat) :
    (gcmTagBytes key iv ct).length = 16 := by
  simp [gcmTagBytes]

theorem gcmTagBytes_wf (key iv ct : List Nat) : BytesWF (gcmTagBytes key iv ct) := by
  intro b hb
  simp only [gcmTagBytes, List.mem_map, List.mem_range] at hb
  obtain ⟨i, _, rfl⟩ := hb
  omega

theorem gcmTagBytes_ne_nil (key iv ct : List Nat) : gcmTagBytes key iv ct ≠ [] := by
  intro h
  have := gcmTagBytes_length key iv ct
  rw [h] at this
  simp at this

/-! ### crypto.js itself: constants and `deriveKey` -/

/-- Source: `const ALGORITHM = 'aes-256-gcm'`. -/
def ALGORITHM : List Char := "aes-256-gcm".toList

/-- Source: `const KEY_LENGTH = 32`. -/
def KEY_LENGTH : Nat := 32

/-- Source: `const IV_LENGTH = 12`. -/
def IV_LENGTH : Nat := 12

/-- Source: `const TAG_LENGTH = 16`. -/
def TAG_LENGTH : Nat := 16

/-- Source: `const SALT_LENGTH = 32`. -/
def SALT_LENGTH : Nat := 32

/-- Source: `const PBKDF2_ITERATIONS = 100000`. -/
def PBKDF2_ITERATIONS : Nat := 100000

/-- Source: `const PBKDF2_DIGEST = 'sha512'`. -/
def PBKDF2_DIGEST : List Char := "sha512".toList

/-- Source `deriveKey(password, salt)`: returns
`crypto.pbkdf2Sync(password, salt, PBKDF2_ITERATIONS, KEY_LENGTH, PBKDF2_DIGEST)`. -/
def deriveKey (password : List Char) (salt : List Nat) : List Nat :=
  pbkdf2Sync password salt PBKDF2_ITERATIONS KEY_LENGTH PBKDF2_DIGEST

theorem pbkdf2Sync_length (password : List Char) (salt : List Nat)
    (iterations keyLen : Nat) (digest : List Char) :
    (pbkdf2Sync password salt iterations keyLen digest).length = keyLen := by
  simp [pbkdf2Sync]

theorem deriveKey_length (password : List Char) (salt : List Nat) :
    (deriveKey password salt).length = 32 :=
  pbkdf2Sync_length password salt PBKDF2_ITERATIONS KEY_LENGTH PBKDF2_DIGEST

/-! ### `getKey`: resolving the system key from the configuration -/

/-- The configuration state read by `getKey`: the environment variables
`ENCRYPTION_KEY`, `SECRET` and `AUTH_SECRET` (`none` = unset). -/
structure Config where
  encryptionKey : Option (List Char) := none
  secret : Option (List Char) := none
  authSecret : Option (List Char) := none

/-- JavaScript truthiness of an optional environment string: an unset
variable and the empty string are falsy. -/
def envStr : Option (List Char) → Option (List Char)
  | some s => if s.isEmpty then none else some s
  | none => none

/-- Source: `const secret = process.env.SECRET || process.env.AUTH_SECRET`. -/
def jsSecret (cfg : Config) : Option (List Char) :=
  match envStr cfg.secret with
  | some s => some s
  | none => envStr cfg.authSecret

/-- Source: the deterministic salt
`crypto.createHash('sha256').update('passop_encryption_salt_v1').digest()`. -/
def deterministicSalt : List Nat :=
  sha256Bytes (utf8Encode "passop_encryption_salt_v1".toList)

/-- Source: `Buffer.from('passop_default_salt_v1_insecure')`. -/
def fallbackSalt : List Nat := utf8Encode "passop_default_salt_v1_insecure".toList

/-- Options 2 and 3 of `getKey`: derive from the secret when it is truthy and
at least 8 characters long, else from the hard-coded insecure default. -/
def getKeySecretStep (cfg : Config) : List Nat :=
  match jsSecret cfg with
  | some secret =>
    if 8 ≤ secret.length then deriveKey secret deterministicSalt
    else deriveKey "passop_default_secret_insecure".toList fallbackSalt
  | none => deriveKey "passop_default_secret_insecure".toList fallbackSalt

/-- Source `getKey()`. Note on the `try/catch`: `Buffer.from(s, 'base64')`
never throws on a string argument (Node decodes leniently), so the catch
branch is unreachable and the only fall-through conditions are a falsy
`ENCRYPTION_KEY` or a decoded length other than `KEY_LENGTH`. -/
def getKey (cfg : Config) : List Nat :=
  match envStr cfg.encryptionKey with
  | some envKeyB64 =>
    let key := jsB64Decode envKeyB64
    if key.length = KEY_LENGTH then key else getKeySecretStep cfg
  | none => getKeySecretStep cfg

theorem getKeySecretStep_length (cfg : Config) :
    (getKeySecretStep cfg).length = 32 := by
  unfold getKeySecretStep
  split
  · split <;> exact deriveKey_length _ _
  · exact deriveKey_length _ _

theorem getKey_length (cfg : Config) : (getKey cfg).length = 32 := by
  unfold getKey
  split
  · simp only []
    split
    · simpa [KEY_LENGTH] using (by assumption : (jsB64Decode _).length = KEY_LENGTH)
    · exact getKeySecretStep_length cfg
  · exact getKeySecretStep_length cfg

/-! ### The encrypted record, `encrypt` and `decrypt` -/

/-- The record shape produced by `encrypt` and consumed by `decrypt`.
`none` models an absent property; each field holds the transport-encoded
(base64 or identifier) string the source stores. -/
structure EncRecord where
  enc : Option (List Char) := none
  iv : Option (List Char) := none
  tag : Option (List Char) := none
  ct : Option (List Char) := none
  salt : Option (List Char) := none

/-- JavaScript truthiness of an optional string property: absent
(`undefined`) and the empty string are falsy. -/
def fieldTruthy : Option (List Char) → Bool
  | none => false
  | some s => !s.isEmpty

/-- The value `decrypt` receives: `null`/`undefined` (and other falsy
non-objects), a legacy plain string, a record object, or a truthy value of
any other type. -/
inductive JsInput where
  | nullish
  | str (s : List Char)
  | record (r : EncRecord)
  | other

/-- The errors crypto.js throws: `'Invalid encrypted object format'`,
`'Decryption failed: data may be corrupted or tampered'` (the catch-all the
spec calls DecryptionError; the internal IV/tag length errors are caught and
rethrown as this one), and `'Missing salt for password-based decryption'`. -/
inductive CryptoErr where
  | invalidFormat
  | decryptionFailed
  | missingSalt
deriving DecidableEq

/-- The `options` argument of `encrypt`/`decrypt`; `options.key` overrides
`getKey()`. -/
structure EncOptions where
  key : Option (List Nat) := none

/-- Source `encrypt(plaintext, options)`. `plaintext = none` models
`null`/`undefined`, normalized to the empty string; `iv` is the
`crypto.randomBytes(IV_LENGTH)` output, passed explicitly. -/
def encrypt (plaintext : Option (List Char)) (opts : EncOptions) (cfg : Config)
    (iv : List Nat) : EncRecord :=
  let pt : List Char := plaintext.getD []
  let key := opts.key.getD (getKey cfg)
  let encrypted := xorKeystream key iv 0 (utf8Encode pt)
  let tag := gcmTagBytes key iv encrypted
  { enc := some ALGORITHM
    iv := some (b64EncodeBytes iv)
    tag := some (b64EncodeBytes tag)
    ct := some (b64EncodeBytes encrypted) }

/-- Source `decrypt(encObj, options)`, translated branch by branch:
falsy input returns `''`; a string returns itself; a truthy non-object
throws `'Invalid encrypted object format'`; a record with a falsy `iv`,
`tag` or `ct` returns `''`; decoded IV/tag length mismatches and
authentication-tag failure all surface as the catch-all decryption error. -/
def decrypt (encObj : JsInput) (opts : EncOptions) (cfg : Config) :
    Except CryptoErr (List Char) :=
  match encObj with
  | .nullish => .ok []
  | .str s => .ok s
  | .other => .error .invalidFormat
  | .record r =>
    if !(fieldTruthy r.iv) || !(fieldTruthy r.tag) || !(fieldTruthy r.ct) then
      .ok []
    else
      let key := opts.key.getD (getKey cfg)
      let iv := jsB64Decode (r.iv.getD [])
      let tag := jsB64Decode (r.tag.getD [])
      let ciphertext := jsB64Decode (r.ct.getD [])
      if iv.length ≠ IV_LENGTH then .error .decryptionFailed
      else if tag.length ≠ TAG_LENGTH then .error .decryptionFailed
      else if tag = gcmTagBytes key iv ciphertext then
        .ok (utf8Decode (xorKeystream key iv 0 ciphertext))
      else .error .decryptionFailed

/-- `decrypt` instrumented with a flag recording whether the AES-GCM
primitive (`createDecipheriv`/`update`/`final`) was invoked; the first
component is exactly `decrypt` (see `decryptInstr_fst`). -/
def decryptInstr (encObj : JsInput) (opts : EncOptions) (cfg : Config) :
    Except CryptoErr (List Char) × Bool :=
  match encObj with
  | .nullish => (.ok [], false)
  | .str s => (.ok s, false)
  | .other => (.error .invalidFormat, false)
  | .record r =>
    if !(fieldTruthy r.iv) || !(fieldTruthy r.tag) || !(fieldTruthy r.ct) then
      (.ok [], false)
    else
      let key := opts.key.getD (getKey cfg)
      let iv := jsB64Decode (r.iv.getD [])
      let tag := jsB64Decode (r.tag.getD [])
      let ciphertext := jsB64Decode (r.ct.getD [])
      if iv.length ≠ IV_LENGTH then (.error .decryptionFailed, false)
      else if tag.length ≠ TAG_LENGTH then (.error .decryptionFailed, false)
      else if tag = gcmTagBytes key iv ciphertext then
        (.ok (utf8Decode (xorKeystream key iv 0 ciphertext)), true)
      else (.error .decryptionFailed, true)

theorem decryptInstr_fst (encObj : JsInput) (opts : EncOptions) (cfg : Config) :
    (decryptInstr encObj opts cfg).1 = decrypt encObj opts cfg := by
  cases encObj with
  | nullish => rfl
  | str s => rfl
  | other => rfl
  | record r =>
    simp only [decrypt, decryptInstr]
    split
    · rfl
    · split
      · rfl
      · split
        · rfl
        · split <;> rfl

/-! ### The password-based wrappers and `secureCompare` -/

/-- Source `encryptWithPassword(plaintext, password)`; `salt` is the
`crypto.randomBytes(SALT_LENGTH)` output and `iv` the one `encrypt` draws,
both passed explicitly. -/
def encryptWithPassword (plaintext : Option (List Char)) (password : List Char)
    (cfg : Config) (salt iv : List Nat) : EncRecord :=
  let key := deriveKey password salt
  let result := encrypt plaintext { key := some key } cfg iv
  { result with salt := some (b64EncodeBytes salt) }

/-- Source `decryptWithPassword(encObj, password)`. For every non-object
input the guard `!encObj || !encObj.salt` holds (either the value is falsy
or the property access yields `undefined`), so only a record with a truthy
`salt` reaches `decrypt`. -/
def decryptWithPassword (encObj : JsInput) (password : List Char) (cfg : Config) :
    Except CryptoErr (List Char) :=
  match encObj with
  | .record r =>
    if fieldTruthy r.salt then
      let salt := jsB64Decode (r.salt.getD [])
      let key := deriveKey password salt
      decrypt (.record r) { key := some key } cfg
    else .error .missingSalt
  | _ => .error .missingSalt

/-- An arbitrary JavaScript value as `secureCompare` receives it: a string,
or anything else (`null`, numbers, objects, ...). -/
inductive JsVal where
  | str (s : List Char)
  | nonString

/-- Model of the external `crypto.timingSafeEqual` on equal-length buffers:
content equality. (On unequal lengths Node throws; the source only calls it
on equal lengths.) -/
def timingSafeEqual (a b : List Nat) : Bool := a == b

/-- Source `secureCompare(a, b)`: `false` for any non-string input; for
strings, compare the UTF-8 buffers, with an early `false` (after a dummy
constant-size comparison) on a length mismatch. -/
def secureCompare (a b : JsVal) : Bool :=
  match a, b with
  | .str sa, .str sb =>
    let bufA := utf8Encode sa
    let bufB := utf8Encode sb
    if bufA.length ≠ bufB.length then false
    else timingSafeEqual bufA bufB
  | _, _ => false

instance {e a : Type} [DecidableEq e] [DecidableEq a] : DecidableEq (Except e a)
  | .ok x, .ok y => decidable_of_iff (x = y) (by simp)
  | .error x, .error y => decidable_of_iff (x = y) (by simp)
  | .ok _, .error _ => isFalse (fun h => Except.noConfusion h)
  | .error _, .ok _ => isFalse (fun h => Except.noConfusion h)

/-! ### Behavior of `decrypt` on records produced by `encrypt` -/

theorem fieldTruthy_some_ne {l : List Char} (h : l ≠ []) :
    fieldTruthy (some l) = true := by
  simp [fieldTruthy, h]

theorem decrypt_wellformed_record (k iv ct : List Nat) (cfg : Config)
    (e so : Option (List Char))
    (hiv : iv.length = 12) (hivb : BytesWF iv) (hct : BytesWF ct) (hctne : ct ≠ []) :
    decrypt
      (.record
        { enc := e
          iv := some (b64EncodeBytes iv)
          tag := some (b64EncodeBytes (gcmTagBytes k iv ct))
          ct := some (b64EncodeBytes ct)
          salt := so })
      { key := some k } cfg = .ok (utf8Decode (xorKeystream k iv 0 ct)) := by
  have hivne : iv ≠ [] := by
    intro h; rw [h] at hiv; simp at hiv
  have h1 := fieldTruthy_some_ne (b64EncodeBytes_ne_nil hivne)
  have h2 := fieldTruthy_some_ne (b64EncodeBytes_ne_nil (gcmTagBytes_ne_nil k iv ct))
  have h3 := fieldTruthy_some_ne (b64EncodeBytes_ne_nil hctne)
  simp only [decrypt, h1, h2, h3, Bool.not_true, Bool.or_self, Bool.or_false,
    Bool.false_or, Bool.or_true, if_neg, Bool.false_eq_true, not_false_eq_true,
    reduceIte, Option.getD_some]
  rw [jsB64Decode_encode iv hivb, jsB64Decode_encode ct hct,
    jsB64Decode_encode _ (gcmTagBytes_wf k iv ct)]
  simp [hiv, IV_LENGTH, TAG_LENGTH, gcmTagBytes_length]

/-! ### The claims -/

/-- C1: for every string plaintext `s` (including the empty string and
non-ASCII/multibyte content), every 32-byte key `k`, and every 12-byte IV the
encryption draws from its random source, decrypting the record produced by
`encrypt(s, {key: k})` with the same key `k` returns exactly `s`. -/
theorem claim1_encrypt_decrypt_roundtrip (s : List Char) (k iv : List Nat)
    (cfg : Config) (hk : k.length = 32) (hiv : iv.length = 12) (hivb : BytesWF iv) :
    decrypt (.record (encrypt (some s) { key := some k } cfg iv))
      { key := some k } cfg = .ok s := by
  by_cases hs : s = []
  · subst hs
    simp only [encrypt, Option.getD_some, utf8Encode_nil, xorKeystream,
      b64EncodeBytes_nil]
    simp [decrypt, fieldTruthy]
  · have hct_wf := xorKeystream_wf k iv 0 _ (utf8Encode_wf s)
    have hctne : xorKeystream k iv 0 (utf8Encode s) ≠ [] := by
      intro h
      rw [xorKeystream_eq_nil_iff] at h
      exact hs ((utf8Encode_eq_nil_iff s).mp h)
    have h := decrypt_wellformed_record k iv (xorKeystream k iv 0 (utf8Encode s))
      cfg (some ALGORITHM) none hiv hivb hct_wf hctne
    simp only [encrypt, Option.getD_some]
    rw [h, xorKeystream_xorKeystream, utf8Decode_utf8Encode]

set_option maxRecDepth 40000 in
/-- Witness for C1 at a concrete non-ASCII plaintext, key and IV. -/
theorem claim1_witness :
    (List.replicate 32 7 : List Nat).length = 32 ∧
    ([1,2,3,4,5,6,7,8,9,10,11,12] : List Nat).length = 12 ∧
    BytesWF [1,2,3,4,5,6,7,8,9,10,11,12] ∧
    decrypt
      (.record (encrypt (some "héllo✓".toList) { key := some (List.replicate 32 7) }
        {} [1,2,3,4,5,6,7,8,9,10,11,12]))
      { key := some (List.replicate 32 7) } {} = .ok "héllo✓".toList :=
  ⟨by decide, by decide, by decide,
    claim1_encrypt_decrypt_roundtrip "héllo✓".toList (List.replicate 32 7)
      [1,2,3,4,5,6,7,8,9,10,11,12] {} (by decide) (by decide) (by decide)⟩

/-- C2: on a record whose `iv`, `tag` and `ct` fields are present and whose
decoded IV and tag have the required lengths, failure of authentication-tag
verification (the stored tag differs from the tag the primitive recomputes
from the supplied key, the nonce and the ciphertext — e.g. after a bit flip
in the ciphertext or under a different key) makes `decrypt` fail with the
decryption error; no (possibly altered) plaintext is ever returned. -/
theorem decrypt_tag_mismatch_aux (r : EncRecord) (k : List Nat) (cfg : Config)
    (h1 : fieldTruthy r.iv = true) (h2 : fieldTruthy r.tag = true)
    (h3 : fieldTruthy r.ct = true)
    (hiv : (jsB64Decode (r.iv.getD [])).length = 12)
    (htag : (jsB64Decode (r.tag.getD [])).length = 16)
    (hfail : jsB64Decode (r.tag.getD []) ≠
      gcmTagBytes k (jsB64Decode (r.iv.getD [])) (jsB64Decode (r.ct.getD []))) :
    decrypt (.record r) { key := some k } cfg = .error .decryptionFailed := by
  simp [decrypt, h1, h2, h3, hiv, htag, IV_LENGTH, TAG_LENGTH, hfail]

theorem claim2_tag_failure_raises (r : EncRecord) (k : List Nat) (cfg : Config)
    (h1 : fieldTruthy r.iv = true) (h2 : fieldTruthy r.tag = true)
    (h3 : fieldTruthy r.ct = true)
    (hiv : (jsB64Decode (r.iv.getD [])).length = 12)
    (htag : (jsB64Decode (r.tag.getD [])).length = 16)
    (hfail : jsB64Decode (r.tag.getD []) ≠
      gcmTagBytes k (jsB64Decode (r.iv.getD [])) (jsB64Decode (r.ct.getD []))) :
    decrypt (.record r) { key := some k } cfg = .error .decryptionFailed :=
  decrypt_tag_mismatch_aux r k cfg h1 h2 h3 hiv htag hfail

set_option maxRecDepth 40000 in
/-- Witness for C2: a record whose ciphertext was altered after encryption
(first ciphertext byte XORed with 1), keeping the original tag. -/
theorem claim2_witness :
    decrypt
      (.record
        { (encrypt (some "hi".toList) { key := some (List.replicate 32 7) }
            {} [1,2,3,4,5,6,7,8,9,10,11,12]) with
          ct := some (b64EncodeBytes
            (match xorKeystream (List.replicate 32 7) [1,2,3,4,5,6,7,8,9,10,11,12] 0
                (utf8Encode "hi".toList) with
              | [] => []
              | b :: rest => (b ^^^ 1) :: rest)) })
      { key := some (List.replicate 32 7) } {} = .error .decryptionFailed :=
  claim2_tag_failure_raises _ _ _ (by decide) (by decide) (by decide)
    (by decide) (by decide) (by decide)

/-- C3: on a record whose `iv`, `tag` and `ct` fields are present, a decoded
nonce of length other than 12 or a decoded tag of length other than 16 makes
`decrypt` fail with the decryption error, and the AES-GCM primitive is never
invoked on the malformed record. -/
theorem claim3_length_validation (r : EncRecord) (opts : EncOptions) (cfg : Config)
    (h1 : fieldTruthy r.iv = true) (h2 : fieldTruthy r.tag = true)
    (h3 : fieldTruthy r.ct = true)
    (hlen : (jsB64Decode (r.iv.getD [])).length ≠ 12 ∨
      (jsB64Decode (r.tag.getD [])).length ≠ 16) :
    decrypt (.record r) opts cfg = .error .decryptionFailed ∧
      (decryptInstr (.record r) opts cfg).2 = false := by
  by_cases hiv2 : (jsB64Decode (r.iv.getD [])).length = 12
  · have htag2 : (jsB64Decode (r.tag.getD [])).length ≠ 16 := by tauto
    constructor
    · simp [decrypt, h1, h2, h3, IV_LENGTH, TAG_LENGTH, hiv2, htag2]
    · simp [decryptInstr, h1, h2, h3, IV_LENGTH, TAG_LENGTH, hiv2, htag2]
  · constructor
    · simp [decrypt, h1, h2, h3, IV_LENGTH, hiv2]
    · simp [decryptInstr, h1, h2, h3, IV_LENGTH, hiv2]

/-- Witness for C3: a record whose `iv` decodes to 3 bytes. -/
theorem claim3_witness :
    decrypt
      (.record
        { iv := some "AAAA".toList
          tag := some "AAAAAAAAAAAAAAAAAAAAAA==".toList
          ct := some "AAAA".toList })
      {} {} = .error .decryptionFailed ∧
    (decryptInstr
      (.record
        { iv := some "AAAA".toList
          tag := some "AAAAAAAAAAAAAAAAAAAAAA==".toList
          ct := some "AAAA".toList })
      {} {}).2 = false :=
  claim3_length_validation _ {} {} (by decide) (by decide) (by decide)
    (Or.inl (by decide))

/-- C4: `decrypt` never raises on absent or legacy input: a falsy
(`null`/`undefined`) record yields the empty string, a plain-string record is
returned unchanged, and an object record missing any of `iv`, `tag` or `ct`
yields the empty string instead of an error. -/
theorem claim4_legacy_inputs (opts : EncOptions) (cfg : Config) (s : List Char)
    (r : EncRecord) :
    decrypt .nullish opts cfg = .ok [] ∧
    decrypt (.str s) opts cfg = .ok s ∧
    ((r.iv = none ∨ r.tag = none ∨ r.ct = none) →
      decrypt (.record r) opts cfg = .ok []) := by
  refine ⟨rfl, rfl, ?_⟩
  intro h
  rcases h with h | h | h <;> simp [decrypt, h, fieldTruthy]

/-- Witness for C4 at a concrete record missing its `iv` field. -/
theorem claim4_witness :
    decrypt .nullish {} {} = .ok [] ∧
    decrypt (.str "legacy-plaintext-password".toList) {} {} =
      .ok "legacy-plaintext-password".toList ∧
    decrypt (.record { tag := some "dGFn".toList, ct := some "Y3Q=".toList }) {} {} =
      .ok [] :=
  ⟨(claim4_legacy_inputs {} {} [] {}).1,
    (claim4_legacy_inputs {} {} "legacy-plaintext-password".toList {}).2.1,
    (claim4_legacy_inputs {} {} []
      { tag := some "dGFn".toList, ct := some "Y3Q=".toList }).2.2 (Or.inl rfl)⟩

/-- C8: `encrypt` never fails: for every plaintext (absent input normalized
to the empty string), every 32-byte key and every 12-byte IV drawn from the
random source, it returns a record whose algorithm identifier is
`aes-256-gcm`, whose decoded nonce is exactly 12 bytes, whose decoded tag is
exactly 16 bytes, and whose decoded ciphertext has exactly the length of the
UTF-8 encoding of the plaintext (no padding). -/
theorem claim8_encrypt_total (pt : Option (List Char)) (k iv : List Nat)
    (cfg : Config) (hk : k.length = 32) (hiv : iv.length = 12) (hivb : BytesWF iv) :
    (encrypt pt { key := some k } cfg iv).enc = some "aes-256-gcm".toList ∧
    (jsB64Decode ((encrypt pt { key := some k } cfg iv).iv.getD [])).length = 12 ∧
    (jsB64Decode ((encrypt pt { key := some k } cfg iv).tag.getD [])).length = 16 ∧
    (jsB64Decode ((encrypt pt { key := some k } cfg iv).ct.getD [])).length =
      (utf8Encode (pt.getD [])).length := by
  have hct_wf := xorKeystream_wf k iv 0 _ (utf8Encode_wf (pt.getD []))
  have htag_wf := gcmTagBytes_wf k iv (xorKeystream k iv 0 (utf8Encode (pt.getD [])))
  simp only [encrypt, Option.getD_some]
  refine ⟨rfl, ?_, ?_, ?_⟩
  · rw [jsB64Decode_encode iv hivb]
    exact hiv
  · rw [jsB64Decode_encode _ htag_wf]
    exact gcmTagBytes_length k iv _
  · rw [jsB64Decode_encode _ hct_wf]
    exact xorKeystream_length k iv 0 _

set_option maxRecDepth 40000 in
/-- Witness for C8 at an absent plaintext, a concrete key and IV. -/
theorem claim8_witness :
    (encrypt none { key := some (List.replicate 32 7) } {}
      [1,2,3,4,5,6,7,8,9,10,11,12]).enc = some "aes-256-gcm".toList ∧
    (jsB64Decode ((encrypt none { key := some (List.replicate 32 7) } {}
      [1,2,3,4,5,6,7,8,9,10,11,12]).iv.getD [])).length = 12 ∧
    (jsB64Decode ((encrypt none { key := some (List.replicate 32 7) } {}
      [1,2,3,4,5,6,7,8,9,10,11,12]).tag.getD [])).length = 16 ∧
    (jsB64Decode ((encrypt none { key := some (List.replicate 32 7) } {}
      [1,2,3,4,5,6,7,8,9,10,11,12]).ct.getD [])).length =
      (utf8Encode ((none : Option (List Char)).getD [])).length :=
  claim8_encrypt_total none (List.replicate 32 7) [1,2,3,4,5,6,7,8,9,10,11,12] {}
    (by decide) (by decide) (by decide)

/-- C9: `secureCompare(a, b)` returns true exactly when both inputs are
strings and they are equal; in particular it is false when either input is
not a string, and false for any two distinct strings of equal or unequal
length. -/
theorem claim9_secureCompare_iff (a b : JsVal) :
    secureCompare a b = true ↔ ∃ s, a = .str s ∧ b = .str s := by
  constructor
  · intro h
    cases a with
    | nonString => simp [secureCompare] at h
    | str sa =>
      cases b with
      | nonString => simp [secureCompare] at h
      | str sb =>
        refine ⟨sa, rfl, ?_⟩
        simp only [secureCompare, timingSafeEqual] at h
        by_cases hlen : (utf8Encode sa).length = (utf8Encode sb).length
        · simp only [hlen, ne_eq, not_true_eq_false, if_false, reduceIte,
            beq_iff_eq] at h
          rw [utf8Encode_injective h]
        · simp [hlen] at h
  · rintro ⟨s, rfl, rfl⟩
    simp [secureCompare, timingSafeEqual]

/-- C10: a record whose `salt` field is present and truthy but which lacks
`iv`, `tag` or `ct` makes `decryptWithPassword` derive a key from the
password and the decoded salt and hand the record to `decrypt`, which
returns the empty string without raising, for every password. -/
theorem claim10_password_missing_fields (r : EncRecord) (p : List Char)
    (cfg : Config) (hsalt : fieldTruthy r.salt = true)
    (hmiss : r.iv = none ∨ r.tag = none ∨ r.ct = none) :
    decryptWithPassword (.record r) p cfg =
      decrypt (.record r)
        { key := some (deriveKey p (jsB64Decode (r.salt.getD []))) } cfg ∧
    decryptWithPassword (.record r) p cfg = .ok [] := by
  have h1 : decryptWithPassword (.record r) p cfg =
      decrypt (.record r)
        { key := some (deriveKey p (jsB64Decode (r.salt.getD []))) } cfg := by
    simp [decryptWithPassword, hsalt]
  refine ⟨h1, ?_⟩
  rw [h1]
  rcases hmiss with h | h | h <;> simp [decrypt, h, fieldTruthy]

/-- Concrete salted record with no `iv` field, for the C10 witness. -/
def saltedNoIvRec : EncRecord :=
  { salt := some "c2FsdA==".toList, tag := some "dGFn".toList,
    ct := some "Y3Q=".toList }

set_option maxRecDepth 40000 in
/-- Witness for C10: a salted record with no `iv` field. -/
theorem claim10_witness :
    decryptWithPassword (.record saltedNoIvRec) "pw".toList {} =
      decrypt (.record saltedNoIvRec)
        { key := some (deriveKey "pw".toList
            (jsB64Decode (saltedNoIvRec.salt.getD []))) } {} ∧
    decryptWithPassword (.record saltedNoIvRec) "pw".toList {} = .ok [] :=
  claim10_password_missing_fields saltedNoIvRec "pw".toList {}
    (by decide) (Or.inl rfl)

/-- C6: `deriveKey` is a pure deterministic function returning the 32-byte
PBKDF2 output computed with the SHA-512 digest constant and the named
iteration-count constant `PBKDF2_ITERATIONS = 100000 ≥ 100000`; identical
inputs yield byte-identical outputs. -/
theorem claim6_deriveKey_contract (secret : List Char) (salt : List Nat) :
    (deriveKey secret salt).length = 32 ∧
    deriveKey secret salt =
      pbkdf2Sync secret salt PBKDF2_ITERATIONS KEY_LENGTH PBKDF2_DIGEST ∧
    PBKDF2_ITERATIONS = 100000 ∧
    100000 ≤ PBKDF2_ITERATIONS ∧
    PBKDF2_DIGEST = "sha512".toList ∧
    KEY_LENGTH = 32 ∧
    (∀ secret2 salt2, secret2 = secret → salt2 = salt →
      deriveKey secret2 salt2 = deriveKey secret salt) := by
  refine ⟨deriveKey_length _ _, rfl, rfl, by norm_num [PBKDF2_ITERATIONS], rfl, rfl, ?_⟩
  intro s2 t2 hs ht
  rw [hs, ht]

set_option maxRecDepth 40000 in
/-- Witness for C6 at a concrete secret and salt. -/
theorem claim6_witness :
    (deriveKey "unit-test-secret-value".toList (List.replicate 32 1)).length = 32 ∧
    deriveKey "unit-test-secret-value".toList (List.replicate 32 1) =
      deriveKey "unit-test-secret-value".toList (List.replicate 32 1) :=
  ⟨(claim6_deriveKey_contract "unit-test-secret-value".toList
      (List.replicate 32 1)).1,
    (claim6_deriveKey_contract "unit-test-secret-value".toList
      (List.replicate 32 1)).2.2.2.2.2.2 _ _ rfl rfl⟩

/-- An `ENCRYPTION_KEY` value that is not valid base64 (it contains `!`) but
whose lenient decoding still has exactly 32 bytes. -/
def badB64Key : List Char := '!' :: List.replicate 43 'A'

/-- Configuration with that invalid `ENCRYPTION_KEY` and a long `SECRET`. -/
def c5cfg : Config :=
  { encryptionKey := some badB64Key, secret := some "averylongsecret".toList }

set_option maxRecDepth 40000 in
/-- Counterexample to C5 as stated: with `ENCRYPTION_KEY` set to a string
that is not valid base64 and a ≥8-character secret configured, the claim
says the resolver falls through to the secret-derived key; the code performs
no base64-validity check, decodes the value leniently to 32 bytes, and
returns that decoded key instead. -/
theorem claim5_counterexample :
    isValidB64 badB64Key = false ∧
    jsSecret c5cfg = some "averylongsecret".toList ∧
    8 ≤ "averylongsecret".toList.length ∧
    getKey c5cfg = jsB64Decode badB64Key ∧
    getKey c5cfg ≠ deriveKey "averylongsecret".toList deterministicSalt :=
  ⟨by decide, by decide, by decide, by decide, by decide⟩

/-- C5 (amended): the resolver always returns a 32-byte key without raising;
precedence: a set, nonempty `ENCRYPTION_KEY` whose lenient base64 decoding
has exactly 32 bytes is decoded and returned (no base64-validity check is
performed: syntactic validity of the value plays no role, only the decoded
length); if the value is absent, empty, or does not decode to exactly
32 bytes, the resolver falls through; next, with the secret resolved as
`SECRET` falling back to `AUTH_SECRET`, a truthy secret of length at least 8
gives `deriveKey(secret, salt)` with the fixed deterministic salt
SHA-256('passop_encryption_salt_v1') — so the same secret always yields the
same key; otherwise the key is derived from the hard-coded insecure default
secret and salt. -/
theorem claim5_amended_getKey_precedence (cfg : Config) :
    (getKey cfg).length = 32 ∧
    (∀ s, envStr cfg.encryptionKey = some s → (jsB64Decode s).length = 32 →
      getKey cfg = jsB64Decode s) ∧
    (∀ s, envStr cfg.encryptionKey = some s → (jsB64Decode s).length ≠ 32 →
      getKey cfg = getKeySecretStep cfg) ∧
    (envStr cfg.encryptionKey = none → getKey cfg = getKeySecretStep cfg) ∧
    (∀ s, jsSecret cfg = some s → 8 ≤ s.length →
      getKeySecretStep cfg = deriveKey s
        (sha256Bytes (utf8Encode "passop_encryption_salt_v1".toList))) ∧
    (∀ s, jsSecret cfg = some s → s.length < 8 →
      getKeySecretStep cfg =
        deriveKey "passop_default_secret_insecure".toList fallbackSalt) ∧
    (jsSecret cfg = none →
      getKeySecretStep cfg =
        deriveKey "passop_default_secret_insecure".toList fallbackSalt) := by
  refine ⟨getKey_length cfg, ?_, ?_, ?_, ?_, ?_, ?_⟩
  · intro s hs hlen
    unfold getKey
    rw [hs]
    simp [hlen, KEY_LENGTH]
  · intro s hs hlen
    unfold getKey
    rw [hs]
    simp [hlen, KEY_LENGTH]
  · intro hs
    unfold getKey
    rw [hs]
  · intro s hs hlen
    unfold getKeySecretStep
    rw [hs]
    simp [hlen, deterministicSalt]
  · intro s hs hlen
    unfold getKeySecretStep
    rw [hs]
    simp
    omega
  · intro hs
    unfold getKeySecretStep
    rw [hs]

/-- A syntactically valid 32-byte `ENCRYPTION_KEY` with a secret also set. -/
def c5okCfg : Config :=
  { encryptionKey := some (List.replicate 43 'A' ++ ['=']),
    secret := some "averylongsecret".toList }

/-- Configuration with only a long secret set. -/
def c5secCfg : Config := { secret := some "averylongsecret".toList }

set_option maxRecDepth 40000 in
/-- Witness for the amended C5: the configured key wins when it decodes to
32 bytes, and a secret-only configuration uses the deterministic salt. -/
theorem claim5_witness :
    getKey c5okCfg = jsB64Decode (List.replicate 43 'A' ++ ['=']) ∧
    getKeySecretStep c5secCfg = deriveKey "averylongsecret".toList
      (sha256Bytes (utf8Encode "passop_encryption_salt_v1".toList)) :=
  ⟨(claim5_amended_getKey_precedence c5okCfg).2.1 _ (by decide) (by decide),
    (claim5_amended_getKey_precedence c5secCfg).2.2.2.2.1 _ (by decide) (by decide)⟩

set_option maxRecDepth 40000 in
/-- Counterexample to C7 as stated: for the empty plaintext the record
produced by `encryptWithPassword` has an empty — hence falsy — `ct` field,
so decrypting it with a different password takes `decrypt`'s missing-field
path and returns the empty string instead of failing with a decryption
error. -/
theorem claim7_counterexample :
    "pass2".toList ≠ "pass1".toList ∧
    decryptWithPassword
      (.record (encryptWithPassword (some []) "pass1".toList {}
        (List.replicate 32 9) [1,2,3,4,5,6,7,8,9,10,11,12]))
      "pass2".toList {} = .ok [] :=
  ⟨by decide, by decide⟩

/-- C7 (amended): `encryptWithPassword(s, p)` attaches the freshly drawn
32-byte salt to the record; `decryptWithPassword` of that record with the
same password returns `s`; with a different password `p2` it fails with the
decryption error provided the plaintext is nonempty (for the empty plaintext
the record's empty `ct` field makes `decrypt` return the empty string
silently) and the key derived from `p2` fails authentication-tag
verification (which the spec asserts of every wrong password); and a record
whose `salt` field is absent or falsy fails with the missing-salt error. -/
theorem claim7_amended_password_roundtrip (s p p2 : List Char) (cfg : Config)
    (salt iv : List Nat) (hsalt : salt.length = 32) (hsaltb : BytesWF salt)
    (hiv : iv.length = 12) (hivb : BytesWF iv) :
    (encryptWithPassword (some s) p cfg salt iv).salt
        = some (b64EncodeBytes salt) ∧
    jsB64Decode ((encryptWithPassword (some s) p cfg salt iv).salt.getD [])
        = salt ∧
    decryptWithPassword (.record (encryptWithPassword (some s) p cfg salt iv))
        p cfg = .ok s ∧
    (s ≠ [] →
      jsB64Decode ((encryptWithPassword (some s) p cfg salt iv).tag.getD []) ≠
        gcmTagBytes (deriveKey p2 salt)
          (jsB64Decode ((encryptWithPassword (some s) p cfg salt iv).iv.getD []))
          (jsB64Decode ((encryptWithPassword (some s) p cfg salt iv).ct.getD [])) →
      decryptWithPassword (.record (encryptWithPassword (some s) p cfg salt iv))
        p2 cfg = .error .decryptionFailed) ∧
    (∀ r : EncRecord, fieldTruthy r.salt = false →
      decryptWithPassword (.record r) p cfg = .error .missingSalt) := by
  have hsne : salt ≠ [] := by
    intro h; rw [h] at hsalt; simp at hsalt
  have hivne : iv ≠ [] := by
    intro h; rw [h] at hiv; simp at hiv
  have hsaltfield : (encryptWithPassword (some s) p cfg salt iv).salt
      = some (b64EncodeBytes salt) := rfl
  have hivfield : (encryptWithPassword (some s) p cfg salt iv).iv
      = some (b64EncodeBytes iv) := rfl
  have hctfield : (encryptWithPassword (some s) p cfg salt iv).ct
      = some (b64EncodeBytes
          (xorKeystream (deriveKey p salt) iv 0 (utf8Encode s))) := rfl
  have htagfield : (encryptWithPassword (some s) p cfg salt iv).tag
      = some (b64EncodeBytes (gcmTagBytes (deriveKey p salt) iv
          (xorKeystream (deriveKey p salt) iv 0 (utf8Encode s)))) := rfl
  have hsaltdec : jsB64Decode
      ((encryptWithPassword (some s) p cfg salt iv).salt.getD []) = salt := by
    rw [hsaltfield, Option.getD_some, jsB64Decode_encode salt hsaltb]
  have hsalttruthy : fieldTruthy (encryptWithPassword (some s) p cfg salt iv).salt
      = true := by
    rw [hsaltfield]
    exact fieldTruthy_some_ne (b64EncodeBytes_ne_nil hsne)
  refine ⟨hsaltfield, hsaltdec, ?_, ?_, ?_⟩
  · show decryptWithPassword _ _ _ = _
    simp only [decryptWithPassword, hsalttruthy, if_true, hsaltdec]
    by_cases hs : s = []
    · subst hs
      have hct0 : (encryptWithPassword (some []) p cfg salt iv).ct = some [] := by
        rw [hctfield, utf8Encode_nil]
        rfl
      simp [decrypt, hct0, fieldTruthy]
    · have hctne : xorKeystream (deriveKey p salt) iv 0 (utf8Encode s) ≠ [] := by
        intro h
        rw [xorKeystream_eq_nil_iff] at h
        exact hs ((utf8Encode_eq_nil_iff s).mp h)
      have hct_wf := xorKeystream_wf (deriveKey p salt) iv 0 _ (utf8Encode_wf s)
      have hrec : encryptWithPassword (some s) p cfg salt iv =
          { enc := some ALGORITHM
            iv := some (b64EncodeBytes iv)
            tag := some (b64EncodeBytes (gcmTagBytes (deriveKey p salt) iv
              (xorKeystream (deriveKey p salt) iv 0 (utf8Encode s))))
            ct := some (b64EncodeBytes
              (xorKeystream (deriveKey p salt) iv 0 (utf8Encode s)))
            salt := some (b64EncodeBytes salt) } := rfl
      rw [hrec, decrypt_wellformed_record (deriveKey p salt) iv
        (xorKeystream (deriveKey p salt) iv 0 (utf8Encode s)) cfg
        (some ALGORITHM) (some (b64EncodeBytes salt)) hiv hivb hct_wf hctne,
        xorKeystream_xorKeystream, utf8Decode_utf8Encode]
  · intro hs hfail
    have hctne : xorKeystream (deriveKey p salt) iv 0 (utf8Encode s) ≠ [] := by
      intro h
      rw [xorKeystream_eq_nil_iff] at h
      exact hs ((utf8Encode_eq_nil_iff s).mp h)
    show decryptWithPassword _ _ _ = _
    simp only [decryptWithPassword, hsalttruthy, if_true, hsaltdec]
    refine decrypt_tag_mismatch_aux _ _ _ ?_ ?_ ?_ ?_ ?_ ?_
    · rw [hivfield]
      exact fieldTruthy_some_ne (b64EncodeBytes_ne_nil hivne)
    · rw [htagfield]
      exact fieldTruthy_some_ne
        (b64EncodeBytes_ne_nil (gcmTagBytes_ne_nil _ _ _))
    · rw [hctfield]
      exact fieldTruthy_some_ne (b64EncodeBytes_ne_nil hctne)
    · rw [hivfield, Option.getD_some, jsB64Decode_encode iv hivb]
      exact hiv
    · rw [htagfield, Option.getD_some,
        jsB64Decode_encode _ (gcmTagBytes_wf _ _ _)]
      exact gcmTagBytes_length _ _ _
    · exact hfail
  · intro r hr
    simp [decryptWithPassword, hr]

set_option maxRecDepth 40000 in
/-- Witness for the amended C7: a concrete nonempty plaintext round-trips
under the right password and fails under a wrong one. -/
theorem claim7_witness :
    decryptWithPassword
      (.record (encryptWithPassword (some "pw".toList) "pass1".toList {}
        (List.replicate 32 9) [1,2,3,4,5,6,7,8,9,10,11,12]))
      "pass1".toList {} = .ok "pw".toList ∧
    decryptWithPassword
      (.record (encryptWithPassword (some "pw".toList) "pass1".toList {}
        (List.replicate 32 9) [1,2,3,4,5,6,7,8,9,10,11,12]))
      "pass2".toList {} = .error .decryptionFailed :=
  ⟨(claim7_amended_password_roundtrip "pw".toList "pass1".toList "pass2".toList {}
      (List.replicate 32 9) [1,2,3,4,5,6,7,8,9,10,11,12]
      (by decide) (by decide) (by decide) (by decide)).2.2.1,
    (claim7_amended_password_roundtrip "pw".toList "pass1".toList "pass2".toList {}
      (List.replicate 32 9) [1,2,3,4,5,6,7,8,9,10,11,12]
      (by decide) (by decide) (by decide) (by decide)).2.2.2.1
      (by decide) (by decide)⟩

end Passop
